import Mathlib

/-!
Verification of the job-queue engine in `src/tools/jobqueue.hpp`
(namespace `jobqueue`): the `JobT`/`JobQueueT` worker-pool system, the
`DefaultJobQueueGroup` and `NumaJobQueueGroup` group variants, and the
NUMA thread-distribution logic.

Pure functions of the source are embedded as Lean functions; the
concurrent worker loop `executeThreadWork` is embedded as a small-step
transition system over an explicit system state (shared queue, atomic
idle counter, one control-flow phase per worker), with sequentially
consistent interleaving of the atomic actions appearing in the source.
-/

namespace JobQueueModel

/-! ## Jobs

A `JobT` is opaque to the engine: its `run(cookie)` may enqueue any
number of new jobs (the fan-out mechanism) and returns a `Bool`; the
engine deletes the job iff `run` returned `true` (Destroy).  We model a
job by the observable effect of its single `run` invocation: the list of
children it enqueues onto the queue and the `Bool` it returns. -/

inductive Job where
  | mk (children : List Job) (runResult : Bool)

/-- Jobs the `run` call pushes onto the queue during its execution. -/
def Job.children : Job → List Job
  | .mk c _ => c

/-- The `Bool` returned by `run(cookie)`: `true` = Destroy, `false` = Retain. -/
def Job.runResult : Job → Bool
  | .mk _ r => r

/-! ## `JobQueueT::try_run` (jobqueue.hpp lines 131-142)

```cpp
bool try_run() {
    job_type* job = NULL;
    if (!m_queue.try_pop(job))
        return (m_idle_count != m_numthrs);
    if (job->run(m_cookie))
        delete job;
    return true;
}
```

The result record captures the returned `Bool`, the queue after the
call (pop plus pushes performed inside `run`), the jobs whose `run` was
invoked, and the jobs `delete`d by the engine. -/

structure TryRunResult where
  result : Bool
  queue : List Job
  ran : List Job
  freed : List Job

/-- Embedding of `JobQueueT::try_run`; `idle` is `m_idle_count`,
`numthrs` is `m_numthrs`, the list is `m_queue` front-first
(`tbb::concurrent_queue` is FIFO: push at back, pop at front). -/
def try_run (idle : Int) (numthrs : Nat) : List Job → TryRunResult
  | [] => ⟨decide (idle ≠ (numthrs : Int)), [], [], []⟩
  | j :: rest =>
      ⟨true, rest ++ j.children, [j], if j.runResult then [j] else []⟩

/-! ## `DefaultJobQueueGroup::assist` (jobqueue.hpp lines 226-229)

```cpp
static inline bool assist(unsigned) { return false; }
```

The function is `static`, reads no state and writes no state; we embed
it with explicit state passing over an arbitrary state type to record
that it leaves every state unchanged. -/

def defaultAssist {σ : Type} (state : σ) (qid : Nat) : Bool × σ :=
  (false, state)

/-! ## `NumaJobQueueGroup::assist` (jobqueue.hpp lines 309-320)

```cpp
bool assist(unsigned qid) {
    unsigned id = qid;
    for (unsigned i = 1; i < m_queues.size(); ++i) {
        // go through queues round-robin starting at own
        if (++id >= m_queues.size()) id = 0;
    }
    return false;
}
```

The loop only advances the local variable `id`; it never calls
`try_run` (or any other member) on `m_queues[id]`, so the member queues
are untouched and the function unconditionally returns `false`.  We
embed the group state as the list of pending-job
lists of the member queues and keep the (dead) round-robin index computation. -/

def numaAssist (queues : List (List Job)) (qid : Nat) : Bool × List (List Job) :=
  let size := queues.length
  -- the loop body `if (++id >= m_queues.size()) id = 0;` run (size-1) times
  let finalId := (List.range (size - 1)).foldl
      (fun id _ => if id + 1 ≥ size then 0 else id + 1) qid
  -- `finalId` is written only to the local `id`, never used: no pop, no run
  (false, queues)

/-! ## `NumaJobQueueGroup::calcThreadNum` (jobqueue.hpp lines 256-268)

```cpp
static unsigned calcThreadNum(int k, int numJobQueues) {
    int realNumaNodes = numa_num_configured_nodes();
    if (realNumaNodes < 1) realNumaNodes = 1;
    int numThreadsPerNode = omp_get_max_threads() / numJobQueues;
    int remainThreads = omp_get_max_threads() % numJobQueues;
    int nodeThreads = numThreadsPerNode;
    if (k < remainThreads) nodeThreads++; // distribute extra threads
    return nodeThreads;
}
```

The environment reads `omp_get_max_threads()` and
`numa_num_configured_nodes()` become the parameters `ompMaxThreads`
and `numaConfiguredNodes`. -/

def calcThreadNum (ompMaxThreads numaConfiguredNodes : Nat)
    (k numJobQueues : Nat) : Nat :=
  let realNumaNodes := if numaConfiguredNodes < 1 then 1 else numaConfiguredNodes
  let numThreadsPerNode := ompMaxThreads / numJobQueues
  let remainThreads := ompMaxThreads % numJobQueues
  let nodeThreads := numThreadsPerNode
  let nodeThreads := if k < remainThreads then nodeThreads + 1 else nodeThreads
  nodeThreads

/-! ## `NumaJobQueueGroup::numaLaunch` (jobqueue.hpp lines 271-306)

```cpp
void numaLaunch() {
    int realNumaNodes = numa_num_configured_nodes();
    if (realNumaNodes < 1) realNumaNodes = 1;
    int numJobQueues = m_queues.size();
    int numThreadsPerNode = omp_get_max_threads() / numJobQueues;
    int remainThreads = omp_get_max_threads() % numJobQueues;
    ...
    for (int k = 0; k < numJobQueues; k++) {
        int nodeThreads = numThreadsPerNode;
        int numaNode = k % realNumaNodes;
        if (k < remainThreads) nodeThreads++; // distribute extra threads
        if (nodeThreads == 0) nodeThreads = 1;
        m_queues[k]->numaLoop(numaNode, nodeThreads);
    }
}
```

We embed the launch plan: for each queue index `k` the pair
`(numaNode, nodeThreads)` passed to `m_queues[k]->numaLoop`. -/

def numaLaunchPlan (ompMaxThreads numaConfiguredNodes numJobQueues : Nat) :
    List (Nat × Nat) :=
  let realNumaNodes := if numaConfiguredNodes < 1 then 1 else numaConfiguredNodes
  let numThreadsPerNode := ompMaxThreads / numJobQueues
  let remainThreads := ompMaxThreads % numJobQueues
  (List.range numJobQueues).map (fun k =>
    let nodeThreads := numThreadsPerNode
    let numaNode := k % realNumaNodes
    let nodeThreads := if k < remainThreads then nodeThreads + 1 else nodeThreads
    let nodeThreads := if nodeThreads = 0 then 1 else nodeThreads
    (numaNode, nodeThreads))

/-! ## `JobQueueT::numaLoop` (jobqueue.hpp lines 199-211)

```cpp
void numaLoop(int numaNode, int numberOfThreads) {
    #pragma omp parallel num_threads(numberOfThreads)
    {
        numa_run_on_node(numaNode);
        numa_set_preferred(numaNode);
        executeThreadWork();
    }   // end omp parallel
    assert(m_queue.unsafe_size() == 0);
}
```

There is no statement between the entry of `numaLoop` and the
`#pragma omp parallel` region: the parameters are not validated, no
error of any kind is raised before threads start, and `numberOfThreads`
is handed verbatim to the `num_threads` clause.  `ConfigError` is the
error taxonomy the surrounding documentation speaks of. -/

inductive ConfigError where
  | ConfigurationError
deriving DecidableEq, Repr

/-- The validation `numaLoop` performs before starting any worker
thread, and the thread count it requests from the OpenMP runtime.  The
source contains no check at all, so the error component is always
`none` and the requested count is the argument unchanged. -/
def numaLoopPrelaunch (numaNode numberOfThreads : Int) :
    Option ConfigError × Int :=
  (none, numberOfThreads)

/-! ## `JobQueueT::executeThreadWork` (jobqueue.hpp lines 144-177)

```cpp
inline void executeThreadWork() {
    job_type* job = NULL;
    m_numthrs = omp_get_num_threads();
    while (true) {
        while (m_queue.try_pop(job)) {
            if (job->run(m_cookie)) delete job;
        }
        // no more jobs -> switch to idle
        ++m_idle_count;
        while (!m_queue.try_pop(job)) {
            if (m_idle_count == m_numthrs) {
                // assist other JobQueues before terminating.
                while (m_group->assist(m_id)) { }
                return;
            }
        }
        // got a new job -> not idle anymore
        --m_idle_count;
        if (job->run(m_cookie)) delete job;
    }
}
```

`loop` / `numaLoop` run `executeThreadWork` on each of `n` workers of
an OpenMP parallel region over the shared `m_queue` and `m_idle_count`.
We model the region as a transition system: one control-flow `Phase`
per worker, marking the point between two consecutive atomic actions of
the code above, and a nondeterministic interleaving of those actions
(sequentially consistent shared memory).  A `run` call is one step that
appends the children of the job to the queue (the enqueues it performs) and
records the `delete`-iff-`run`-returned-`true` decision. -/

/-- Control-flow positions of one worker inside `executeThreadWork`:
* `drain`: about to execute `m_queue.try_pop` of the outer drain loop;
* `runningDrain j`: popped `j` in the drain loop, about to run it;
* `goingIdle`: drain pop failed, about to execute `++m_idle_count`;
* `retry`: about to execute `m_queue.try_pop` of the retry loop;
* `checkTerm`: retry pop failed, about to compare `m_idle_count == m_numthrs`;
* `gotJob j`: retry pop returned `j`, about to execute `--m_idle_count`;
* `runningRetry j`: decremented, about to run `j`;
* `assisting`: about to call `m_group->assist(m_id)` in the exit loop;
* `exited`: returned from `executeThreadWork`. -/
inductive Phase where
  | drain
  | runningDrain (j : Job)
  | goingIdle
  | retry
  | checkTerm
  | gotJob (j : Job)
  | runningRetry (j : Job)
  | assisting
  | exited

/-- Shared state of one `JobQueueT` during a parallel region with `n`
workers: `m_queue` (front-first), `m_idle_count`, the control
position of each worker, plus two ghost histories: the jobs whose `run` was invoked and
the jobs the engine `delete`d. -/
structure SysState (n : Nat) where
  queue : List Job
  idle : Int
  phase : Fin n → Phase
  ran : List Job
  freed : List Job

/-- State at the start of the parallel region: the seeded jobs are
pending, `m_idle_count` is `0` (the constructor initializes it to `0`
and `loop` re-zeroes it), every worker is at the head of the drain
loop. -/
def initState (n : Nat) (jobs : List Job) : SysState n :=
  ⟨jobs, 0, fun w => Phase.drain, [], []⟩

/-- One atomic action of some worker `w`.  `assistRes` is the value the
assist operation of the group returns to this queue (both `DefaultJobQueueGroup` and
`NumaJobQueueGroup` as written return `false` on every call and leave
all queues untouched; the parameter keeps the loop `while (assist) {}`
faithful for an arbitrary constant-result group). -/
inductive Step (n : Nat) (assistRes : Bool) : SysState n → SysState n → Prop where
  | drainPopOk (s : SysState n) (w : Fin n) (j : Job) (rest : List Job)
      (hw : s.phase w = Phase.drain) (hq : s.queue = j :: rest) :
      Step n assistRes s
        { s with queue := rest,
                 phase := Function.update s.phase w (Phase.runningDrain j) }
  | drainPopFail (s : SysState n) (w : Fin n)
      (hw : s.phase w = Phase.drain) (hq : s.queue = []) :
      Step n assistRes s
        { s with phase := Function.update s.phase w Phase.goingIdle }
  | runDrain (s : SysState n) (w : Fin n) (j : Job)
      (hw : s.phase w = Phase.runningDrain j) :
      Step n assistRes s
        { s with queue := s.queue ++ j.children,
                 ran := s.ran ++ [j],
                 freed := s.freed ++ (if j.runResult then [j] else []),
                 phase := Function.update s.phase w Phase.drain }
  | incIdle (s : SysState n) (w : Fin n)
      (hw : s.phase w = Phase.goingIdle) :
      Step n assistRes s
        { s with idle := s.idle + 1,
                 phase := Function.update s.phase w Phase.retry }
  | retryPopOk (s : SysState n) (w : Fin n) (j : Job) (rest : List Job)
      (hw : s.phase w = Phase.retry) (hq : s.queue = j :: rest) :
      Step n assistRes s
        { s with queue := rest,
                 phase := Function.update s.phase w (Phase.gotJob j) }
  | retryPopFail (s : SysState n) (w : Fin n)
      (hw : s.phase w = Phase.retry) (hq : s.queue = []) :
      Step n assistRes s
        { s with phase := Function.update s.phase w Phase.checkTerm }
  | checkTermYes (s : SysState n) (w : Fin n)
      (hw : s.phase w = Phase.checkTerm) (hidle : s.idle = (n : Int)) :
      Step n assistRes s
        { s with phase := Function.update s.phase w Phase.assisting }
  | checkTermNo (s : SysState n) (w : Fin n)
      (hw : s.phase w = Phase.checkTerm) (hidle : s.idle ≠ (n : Int)) :
      Step n assistRes s
        { s with phase := Function.update s.phase w Phase.retry }
  | decIdle (s : SysState n) (w : Fin n) (j : Job)
      (hw : s.phase w = Phase.gotJob j) :
      Step n assistRes s
        { s with idle := s.idle - 1,
                 phase := Function.update s.phase w (Phase.runningRetry j) }
  | runRetry (s : SysState n) (w : Fin n) (j : Job)
      (hw : s.phase w = Phase.runningRetry j) :
      Step n assistRes s
        { s with queue := s.queue ++ j.children,
                 ran := s.ran ++ [j],
                 freed := s.freed ++ (if j.runResult then [j] else []),
                 phase := Function.update s.phase w Phase.drain }
  | assistAgain (s : SysState n) (w : Fin n)
      (hw : s.phase w = Phase.assisting) (ha : assistRes = true) :
      Step n assistRes s
        { s with phase := Function.update s.phase w Phase.assisting }
  | assistDone (s : SysState n) (w : Fin n)
      (hw : s.phase w = Phase.assisting) (ha : assistRes = false) :
      Step n assistRes s
        { s with phase := Function.update s.phase w Phase.exited }

/-- States reachable from `init` by interleaving worker actions. -/
inductive Reachable (n : Nat) (assistRes : Bool) (init : SysState n) :
    SysState n → Prop where
  | refl : Reachable n assistRes init init
  | step {s t : SysState n} (hr : Reachable n assistRes init s)
      (hs : Step n assistRes s t) : Reachable n assistRes init t

/-- Contribution of a worker in the given phase to `m_idle_count`: `1`
after its `++m_idle_count` and before the matching `--m_idle_count` (or
forever, if it exits), else `0`. -/
def contrib : Phase → Int
  | Phase.retry => 1
  | Phase.checkTerm => 1
  | Phase.gotJob j => 1
  | Phase.assisting => 1
  | Phase.exited => 1
  | p => 0

/-- Sum of the idle contributions of all workers. -/
def contribSum {n : Nat} (f : Fin n → Phase) : Int :=
  Finset.univ.sum (fun w => contrib (f w))

lemma contribSum_update {n : Nat} (f : Fin n → Phase) (v : Fin n) (p : Phase) :
    contribSum (Function.update f v p) = contribSum f - contrib (f v) + contrib p := by
  have hpt : ∀ w, contrib (Function.update f v p w) =
      Function.update (fun x => contrib (f x)) v (contrib p) w := by
    intro w
    by_cases hwv : w = v
    · subst hwv; simp
    · rw [Function.update_noteq hwv, Function.update_noteq hwv]
  unfold contribSum
  rw [Finset.sum_congr rfl (fun w _ => hpt w),
      Finset.sum_update_of_mem (Finset.mem_univ v),
      Finset.sum_eq_add_sum_diff_singleton (Finset.mem_univ v)
        (fun w => contrib (f w))]
  ring

/-- Inductive invariant: `m_idle_count` always equals the number of
workers between their increment and their matching decrement. -/
lemma idle_eq_contribSum {n : Nat} {assistRes : Bool} {jobs : List Job}
    {s : SysState n} (h : Reachable n assistRes (initState n jobs) s) :
    s.idle = contribSum s.phase := by
  induction h with
  | refl => simp [initState, contribSum, contrib]
  | step hr hs ih =>
      cases hs with
      | drainPopOk w j rest hw hq => simp [contribSum_update, hw, contrib, ih]
      | drainPopFail w hw hq => simp [contribSum_update, hw, contrib, ih]
      | runDrain w j hw => simp [contribSum_update, hw, contrib, ih]
      | incIdle w hw => simp [contribSum_update, hw, contrib, ih]
      | retryPopOk w j rest hw hq => simp [contribSum_update, hw, contrib, ih]
      | retryPopFail w hw hq => simp [contribSum_update, hw, contrib, ih]
      | checkTermYes w hw hidle => simp [contribSum_update, hw, contrib, ih]
      | checkTermNo w hw hidle => simp [contribSum_update, hw, contrib, ih]
      | decIdle w j hw => simp [contribSum_update, hw, contrib, ih]
      | runRetry w j hw => simp [contribSum_update, hw, contrib, ih]
      | assistAgain w hw ha => simp [contribSum_update, hw, contrib, ih]
      | assistDone w hw ha => simp [contribSum_update, hw, contrib, ih]

/-- Phases in which a worker performs no queue mutation any more until
it either leaves the phase set or exits: it is past a failed pop and
before obtaining any job. -/
def quietPhase (p : Phase) : Prop :=
  p = Phase.checkTerm ∨ p = Phase.assisting ∨ p = Phase.exited

/-- Inductive invariant behind the drain property: if every worker is
past a failed pop (checking termination, assisting, or exited), the
queue is empty.  A worker enters this phase set only through a failed
`try_pop`, which witnesses the queue empty, and no worker inside the
set mutates the queue. -/
lemma quiet_queue_empty {n : Nat} {assistRes : Bool} {jobs : List Job}
    {s : SysState n} (hn : 0 < n)
    (h : Reachable n assistRes (initState n jobs) s)
    (hq : ∀ w, quietPhase (s.phase w)) : s.queue = [] := by
  induction h with
  | refl =>
      exact absurd (hq ⟨0, hn⟩) (by simp [initState, quietPhase])
  | @step s t hr hs ih =>
      cases hs with
      | drainPopOk w j rest hw hqueue =>
          have hcon := hq w
          simp [quietPhase, Function.update_same] at hcon
      | drainPopFail w hw hqueue =>
          have hcon := hq w
          simp [quietPhase, Function.update_same] at hcon
      | runDrain w j hw =>
          have hcon := hq w
          simp [quietPhase, Function.update_same] at hcon
      | incIdle w hw =>
          have hcon := hq w
          simp [quietPhase, Function.update_same] at hcon
      | retryPopOk w j rest hw hqueue =>
          have hcon := hq w
          simp [quietPhase, Function.update_same] at hcon
      | retryPopFail w hw hqueue =>
          exact hqueue
      | checkTermYes w hw hidle =>
          refine ih (fun v => ?_)
          by_cases hv : v = w
          · subst hv; exact Or.inl hw
          · have hcon := hq v
            simp only [Function.update_noteq hv] at hcon
            exact hcon
      | checkTermNo w hw hidle =>
          have hcon := hq w
          simp [quietPhase, Function.update_same] at hcon
      | decIdle w j hw =>
          have hcon := hq w
          simp [quietPhase, Function.update_same] at hcon
      | runRetry w j hw =>
          have hcon := hq w
          simp [quietPhase, Function.update_same] at hcon
      | assistAgain w hw ha =>
          refine ih (fun v => ?_)
          by_cases hv : v = w
          · subst hv; exact Or.inr (Or.inl hw)
          · have hcon := hq v
            simp only [Function.update_noteq hv] at hcon
            exact hcon
      | assistDone w hw ha =>
          refine ih (fun v => ?_)
          by_cases hv : v = w
          · subst hv; exact Or.inr (Or.inl hw)
          · have hcon := hq v
            simp only [Function.update_noteq hv] at hcon
            exact hcon

/-- Helper for reading off a `Function.update` at a point known not to
have the old value. -/
lemma update_eq_cases {n : Nat} (f : Fin n → Phase) (v w : Fin n) (p q : Phase)
    (h : Function.update f v p w = q) (hne : ¬ f w = q) : w = v ∧ p = q := by
  by_cases hwv : w = v
  · subst hwv
    rw [Function.update_same] at h
    exact ⟨rfl, h⟩
  · rw [Function.update_noteq hwv] at h
    exact absurd h hne

/-- Claim C3: in `executeThreadWork`, a worker exits only via the path
where, after a failed pop, the idle counter equals the total worker
count and it has then invoked the assist operation of the group until assist
returned `false`; there is no other exit from the loop.  Formally, at
every step of the system: a worker becomes `exited` only from the
`assisting` phase with the assist call returning `false`; it becomes
`assisting` only from the termination check with
`m_idle_count == m_numthrs`; and it reaches the termination check only
from the retry pop observing an empty queue. -/
theorem worker_exit_only_via_assist_path (n : Nat) (assistRes : Bool)
    (s t : SysState n) (w : Fin n) (hstep : Step n assistRes s t) :
    ((t.phase w = Phase.exited ∧ ¬ s.phase w = Phase.exited) →
        s.phase w = Phase.assisting ∧ assistRes = false) ∧
    ((t.phase w = Phase.assisting ∧ ¬ s.phase w = Phase.assisting) →
        s.phase w = Phase.checkTerm ∧ s.idle = (n : Int)) ∧
    ((t.phase w = Phase.checkTerm ∧ ¬ s.phase w = Phase.checkTerm) →
        s.phase w = Phase.retry ∧ s.queue = []) := by
  cases hstep with
  | drainPopOk v j rest hv hqueue =>
      exact ⟨fun hc => Phase.noConfusion (update_eq_cases s.phase v w _ _ hc.1 hc.2).2,
             fun hc => Phase.noConfusion (update_eq_cases s.phase v w _ _ hc.1 hc.2).2,
             fun hc => Phase.noConfusion (update_eq_cases s.phase v w _ _ hc.1 hc.2).2⟩
  | drainPopFail v hv hqueue =>
      exact ⟨fun hc => Phase.noConfusion (update_eq_cases s.phase v w _ _ hc.1 hc.2).2,
             fun hc => Phase.noConfusion (update_eq_cases s.phase v w _ _ hc.1 hc.2).2,
             fun hc => Phase.noConfusion (update_eq_cases s.phase v w _ _ hc.1 hc.2).2⟩
  | runDrain v j hv =>
      exact ⟨fun hc => Phase.noConfusion (update_eq_cases s.phase v w _ _ hc.1 hc.2).2,
             fun hc => Phase.noConfusion (update_eq_cases s.phase v w _ _ hc.1 hc.2).2,
             fun hc => Phase.noConfusion (update_eq_cases s.phase v w _ _ hc.1 hc.2).2⟩
  | incIdle v hv =>
      exact ⟨fun hc => Phase.noConfusion (update_eq_cases s.phase v w _ _ hc.1 hc.2).2,
             fun hc => Phase.noConfusion (update_eq_cases s.phase v w _ _ hc.1 hc.2).2,
             fun hc => Phase.noConfusion (update_eq_cases s.phase v w _ _ hc.1 hc.2).2⟩
  | retryPopOk v j rest hv hqueue =>
      exact ⟨fun hc => Phase.noConfusion (update_eq_cases s.phase v w _ _ hc.1 hc.2).2,
             fun hc => Phase.noConfusion (update_eq_cases s.phase v w _ _ hc.1 hc.2).2,
             fun hc => Phase.noConfusion (update_eq_cases s.phase v w _ _ hc.1 hc.2).2⟩
  | retryPopFail v hv hqueue =>
      refine ⟨fun hc => Phase.noConfusion (update_eq_cases s.phase v w _ _ hc.1 hc.2).2,
              fun hc => Phase.noConfusion (update_eq_cases s.phase v w _ _ hc.1 hc.2).2,
              fun hc => ?_⟩
      obtain ⟨hwv, -⟩ := update_eq_cases s.phase v w _ _ hc.1 hc.2
      subst hwv
      exact ⟨hv, hqueue⟩
  | checkTermYes v hv hidle =>
      refine ⟨fun hc => Phase.noConfusion (update_eq_cases s.phase v w _ _ hc.1 hc.2).2,
              fun hc => ?_,
              fun hc => Phase.noConfusion (update_eq_cases s.phase v w _ _ hc.1 hc.2).2⟩
      obtain ⟨hwv, -⟩ := update_eq_cases s.phase v w _ _ hc.1 hc.2
      subst hwv
      exact ⟨hv, hidle⟩
  | checkTermNo v hv hidle =>
      exact ⟨fun hc => Phase.noConfusion (update_eq_cases s.phase v w _ _ hc.1 hc.2).2,
             fun hc => Phase.noConfusion (update_eq_cases s.phase v w _ _ hc.1 hc.2).2,
             fun hc => Phase.noConfusion (update_eq_cases s.phase v w _ _ hc.1 hc.2).2⟩
  | decIdle v j hv =>
      exact ⟨fun hc => Phase.noConfusion (update_eq_cases s.phase v w _ _ hc.1 hc.2).2,
             fun hc => Phase.noConfusion (update_eq_cases s.phase v w _ _ hc.1 hc.2).2,
             fun hc => Phase.noConfusion (update_eq_cases s.phase v w _ _ hc.1 hc.2).2⟩
  | runRetry v j hv =>
      exact ⟨fun hc => Phase.noConfusion (update_eq_cases s.phase v w _ _ hc.1 hc.2).2,
             fun hc => Phase.noConfusion (update_eq_cases s.phase v w _ _ hc.1 hc.2).2,
             fun hc => Phase.noConfusion (update_eq_cases s.phase v w _ _ hc.1 hc.2).2⟩
  | assistAgain v hv ha =>
      refine ⟨fun hc => Phase.noConfusion (update_eq_cases s.phase v w _ _ hc.1 hc.2).2,
              fun hc => ?_,
              fun hc => Phase.noConfusion (update_eq_cases s.phase v w _ _ hc.1 hc.2).2⟩
      obtain ⟨hwv, -⟩ := update_eq_cases s.phase v w _ _ hc.1 hc.2
      subst hwv
      exact absurd hv hc.2
  | assistDone v hv ha =>
      refine ⟨fun hc => ?_,
              fun hc => Phase.noConfusion (update_eq_cases s.phase v w _ _ hc.1 hc.2).2,
              fun hc => Phase.noConfusion (update_eq_cases s.phase v w _ _ hc.1 hc.2).2⟩
      obtain ⟨hwv, -⟩ := update_eq_cases s.phase v w _ _ hc.1 hc.2
      subst hwv
      exact ⟨hv, ha⟩

/-- Claim C4: for a finite job set, when the parallel region of
`loop`/`numaLoop` has terminated (every worker has left
`executeThreadWork`), the queue holds zero pending jobs — the
`assert(m_queue.unsafe_size() == 0)` at the end of `loop` and
`numaLoop` holds on every normal return. -/
theorem launch_returns_queue_empty (n : Nat) (assistRes : Bool)
    (jobs : List Job) (s : SysState n) (hn : 0 < n)
    (h : Reachable n assistRes (initState n jobs) s)
    (hex : ∀ w, s.phase w = Phase.exited) : s.queue = [] :=
  quiet_queue_empty hn h (fun w => Or.inr (Or.inr (hex w)))

/-- Claim C7: at every reachable instant of a launch, `m_idle_count`
lies between `0` and the number of workers of the parallel region:
increments happen only on the transition to idle and decrements only
when an idle worker obtained a job, so the counter never exceeds the
worker count and never drops below zero. -/
theorem idle_counter_bounds (n : Nat) (assistRes : Bool) (jobs : List Job)
    (s : SysState n) (h : Reachable n assistRes (initState n jobs) s) :
    0 ≤ s.idle ∧ s.idle ≤ (n : Int) := by
  rw [idle_eq_contribSum h]
  unfold contribSum
  constructor
  · refine Finset.sum_nonneg (fun w hmem => ?_)
    cases hp : s.phase w <;> simp [contrib]
  · calc Finset.univ.sum (fun w => contrib (s.phase w))
        ≤ Finset.univ.sum (fun w : Fin n => (1 : Int)) := by
          refine Finset.sum_le_sum (fun w hmem => ?_)
          cases hp : s.phase w <;> simp [contrib]
      _ = (n : Int) := by simp

/-- Claim C8: after every invocation of the `run` of a job by the engine —
in the drain loop, in the retry path, and in `try_run` — the engine
`delete`s the job iff the call returned `true` (Destroy): the jobs
freed so far are exactly the ran jobs whose `run` returned `true`. -/
theorem job_freed_iff_run_returned_destroy :
    (∀ (n : Nat) (assistRes : Bool) (jobs : List Job) (s : SysState n),
        Reachable n assistRes (initState n jobs) s →
        s.freed = s.ran.filter (fun j => j.runResult)) ∧
    (∀ (idle : Int) (numthrs : Nat) (q : List Job),
        (try_run idle numthrs q).freed =
          (try_run idle numthrs q).ran.filter (fun j => j.runResult)) := by
  constructor
  · intro n assistRes jobs s h
    induction h with
    | refl => rfl
    | @step s t hr hs ih =>
        cases hs with
        | drainPopOk w j rest hw hqueue => exact ih
        | drainPopFail w hw hqueue => exact ih
        | runDrain w j hw =>
            show s.freed ++ (if j.runResult then [j] else []) =
              (s.ran ++ [j]).filter (fun j => j.runResult)
            rw [List.filter_append, ih]
            cases hj : j.runResult <;> simp [List.filter, hj]
        | incIdle w hw => exact ih
        | retryPopOk w j rest hw hqueue => exact ih
        | retryPopFail w hw hqueue => exact ih
        | checkTermYes w hw hidle => exact ih
        | checkTermNo w hw hidle => exact ih
        | decIdle w j hw => exact ih
        | runRetry w j hw =>
            show s.freed ++ (if j.runResult then [j] else []) =
              (s.ran ++ [j]).filter (fun j => j.runResult)
            rw [List.filter_append, ih]
            cases hj : j.runResult <;> simp [List.filter, hj]
        | assistAgain w hw ha => exact ih
        | assistDone w hw ha => exact ih
  · intro idle numthrs q
    cases q with
    | nil => rfl
    | cons j rest =>
        show (if j.runResult then [j] else []) = [j].filter (fun j => j.runResult)
        cases hj : j.runResult <;> simp [List.filter, hj]

/-! ## Concrete executions

A single worker on an initially empty queue performing the shutdown
sequence, and a single worker draining one `Destroy` job.  These
instantiate the hypotheses of the theorems above. -/

/-- A job that enqueues nothing and returns `true` (Destroy). -/
def j0 : Job := Job.mk [] true

def a0 : SysState 1 := initState 1 []

def a1 : SysState 1 :=
  { a0 with phase := Function.update a0.phase 0 Phase.goingIdle }

def a2 : SysState 1 :=
  { a1 with idle := a1.idle + 1, phase := Function.update a1.phase 0 Phase.retry }

def a3 : SysState 1 :=
  { a2 with phase := Function.update a2.phase 0 Phase.checkTerm }

def a4 : SysState 1 :=
  { a3 with phase := Function.update a3.phase 0 Phase.assisting }

def a5 : SysState 1 :=
  { a4 with phase := Function.update a4.phase 0 Phase.exited }

lemma step_a4_a5 : Step 1 false a4 a5 := Step.assistDone a4 0 rfl rfl

lemma reach_a5 : Reachable 1 false a0 a5 :=
  Reachable.step
    (Reachable.step
      (Reachable.step
        (Reachable.step
          (Reachable.step Reachable.refl (Step.drainPopFail a0 0 rfl rfl))
          (Step.incIdle a1 0 rfl))
        (Step.retryPopFail a2 0 rfl rfl))
      (Step.checkTermYes a3 0 rfl (by decide)))
    step_a4_a5

def b0 : SysState 1 := initState 1 [j0]

def b1 : SysState 1 :=
  { b0 with queue := [],
            phase := Function.update b0.phase 0 (Phase.runningDrain j0) }

def b2 : SysState 1 :=
  { b1 with queue := b1.queue ++ j0.children,
            ran := b1.ran ++ [j0],
            freed := b1.freed ++ (if j0.runResult then [j0] else []),
            phase := Function.update b1.phase 0 Phase.drain }

lemma reach_b2 : Reachable 1 false b0 b2 :=
  Reachable.step
    (Reachable.step Reachable.refl (Step.drainPopOk b0 0 j0 [] rfl rfl))
    (Step.runDrain b1 0 j0 rfl)

/-- Witness for C3 at the concrete exit step `a4 → a5`. -/
theorem worker_exit_only_via_assist_path_witness :
    a4.phase 0 = Phase.assisting ∧ false = false :=
  (worker_exit_only_via_assist_path 1 false a4 a5 0 step_a4_a5).1
    ⟨rfl, fun hcon => Phase.noConfusion hcon⟩

/-- Witness for C4 on the concrete shutdown execution. -/
theorem launch_returns_queue_empty_witness : a5.queue = [] :=
  launch_returns_queue_empty 1 false [] a5 (by decide) reach_a5
    (by intro w; fin_cases w; rfl)

/-- Witness for C7 at the final state of the concrete shutdown
execution. -/
theorem idle_counter_bounds_witness : 0 ≤ a5.idle ∧ a5.idle ≤ ((1 : Nat) : Int) :=
  idle_counter_bounds 1 false [] a5 reach_a5

/-- Witness for C8 on the concrete one-job execution. -/
theorem job_freed_iff_run_returned_destroy_witness :
    b2.freed = b2.ran.filter (fun j => j.runResult) :=
  job_freed_iff_run_returned_destroy.1 1 false [j0] b2 reach_b2

/-! ## Claims about the group functions -/

/-- Claim C1 (failing input): with two queues in the Numa group where
the sibling queue `1` holds a pending job, `assist(0)` neither pops nor
runs the job of the sibling — it leaves both queues exactly as they were —
and returns `false`, although the claimed (intended) semantics demands
a pop-and-run on the sibling and a `true` return here. -/
theorem numaAssist_ignores_nonempty_sibling :
    numaAssist [[], [j0]] 0 = (false, [[], [j0]]) := rfl

/-- Claim C2 (counterexample): `numaLoop` called with
`numberOfThreads = 0` reports no `ConfigurationError` — the source
performs no validation whatsoever before the parallel region. -/
theorem numaLoop_zero_threads_reports_no_error :
    (numaLoopPrelaunch 0 0).1 = none ∧
      ¬ (numaLoopPrelaunch 0 0).1 = some ConfigError.ConfigurationError :=
  ⟨rfl, by decide⟩

/-- Claim C2 (amended): `numaLoop` performs no validation of
`numberOfThreads`: for every argument value, including `0`, no error is
reported before worker threads start and the value is passed unchanged
to the `num_threads` clause of the parallel region. -/
theorem numaLoop_performs_no_validation :
    ∀ (numaNode numberOfThreads : Int),
      numaLoopPrelaunch numaNode numberOfThreads = (none, numberOfThreads) :=
  fun numaNode numberOfThreads => rfl

/-- Claim C5: for `K ≥ 1` queues and `T ≥ K` available hardware
threads, `calcThreadNum(k, K)` equals `⌊T/K⌋` plus one extra iff
`k < T mod K`, and the per-queue counts sum to exactly `T`. -/
theorem calcThreadNum_balanced (T R K : Nat) (hK : 0 < K) (hT : K ≤ T) :
    (∀ k, calcThreadNum T R k K = T / K + (if k < T % K then 1 else 0)) ∧
    (Finset.range K).sum (fun k => calcThreadNum T R k K) = T := by
  have hcalc : ∀ k, calcThreadNum T R k K = T / K + (if k < T % K then 1 else 0) := by
    intro k
    unfold calcThreadNum
    by_cases h : k < T % K <;> simp [h]
  refine ⟨hcalc, ?_⟩
  rw [Finset.sum_congr rfl (fun k hk => hcalc k), Finset.sum_add_distrib,
      Finset.sum_const, Finset.card_range]
  have hfil : ((Finset.range K).sum fun k => if k < T % K then 1 else 0) = T % K := by
    have hmod : T % K < K := Nat.mod_lt T hK
    have hset : (Finset.range K).filter (fun k => k < T % K) = Finset.range (T % K) := by
      ext x
      simp only [Finset.mem_filter, Finset.mem_range]
      omega
    rw [← Finset.sum_filter (fun k => k < T % K) (fun k => 1), hset,
        Finset.sum_const, Finset.card_range, smul_eq_mul, mul_one]
  rw [hfil, smul_eq_mul]
  exact Nat.div_add_mod T K

/-- Witness for C5 at `T = 7` threads, `R = 2` nodes, `K = 3` queues. -/
theorem calcThreadNum_balanced_witness :
    (Finset.range 3).sum (fun k => calcThreadNum 7 2 k 3) = 7 :=
  (calcThreadNum_balanced 7 2 3 (by decide) (by decide)).2

/-- Claim C6: in the group launch with `K` registered queues and
`R ≥ 1` actual NUMA nodes, queue `k` is launched pinned to NUMA node
`k mod R`, for every `k < K`, including when `R < K`. -/
theorem numaLaunch_node_mapping (T R K k : Nat) (hR : 1 ≤ R) (hk : k < K) :
    ((numaLaunchPlan T R K).get? k).map Prod.fst = some (k % R) := by
  unfold numaLaunchPlan
  rw [List.get?_map, List.get?_range hk]
  simp [Nat.not_lt.mpr hR]

/-- Witness for C6 at `K = 5` queues on `R = 2` nodes (`R < K`),
queue `3`. -/
theorem numaLaunch_node_mapping_witness :
    ((numaLaunchPlan 3 2 5).get? 3).map Prod.fst = some (3 % 2) :=
  numaLaunch_node_mapping 3 2 5 3 (by decide) (by decide)

/-- Claim C9: `DefaultJobQueueGroup::assist` returns `false` for every
queue id and leaves any state untouched. -/
theorem defaultAssist_always_false_no_effect :
    ∀ (σ : Type) (state : σ) (qid : Nat),
      defaultAssist state qid = (false, state) :=
  fun σ state qid => rfl

/-- Claim C10: in `numaLaunch`, every registered queue is launched with
at least one thread; when the per-queue share `⌊T/K⌋` is zero, the
launched count is exactly the substituted `1`. -/
theorem numaLaunch_at_least_one_thread (T R K k : Nat) (hk : k < K) :
    (∀ p, (numaLaunchPlan T R K).get? k = some p → 1 ≤ p.2) ∧
    (T / K = 0 → ((numaLaunchPlan T R K).get? k).map Prod.snd = some 1) := by
  have hget : (numaLaunchPlan T R K).get? k =
      some (k % (if R < 1 then 1 else R),
        if (if k < T % K then T / K + 1 else T / K) = 0 then 1
        else (if k < T % K then T / K + 1 else T / K)) := by
    unfold numaLaunchPlan
    rw [List.get?_map, List.get?_range hk]
    rfl
  constructor
  · intro p hp
    rw [hget] at hp
    cases hp
    show 1 ≤ (if (if k < T % K then T / K + 1 else T / K) = 0 then 1
        else (if k < T % K then T / K + 1 else T / K))
    by_cases h0 : (if k < T % K then T / K + 1 else T / K) = 0
    · rw [if_pos h0]
    · rw [if_neg h0]
      exact Nat.one_le_iff_ne_zero.mpr h0
  · intro hTK
    rw [hget]
    by_cases h : k < T % K <;> simp [h, hTK]

/-- Witness for C10 at `T = 2` threads, `K = 5` queues (`T < K`),
queue `4`. -/
theorem numaLaunch_at_least_one_thread_witness :
    ((numaLaunchPlan 2 1 5).get? 4).map Prod.snd = some 1 :=
  (numaLaunch_at_least_one_thread 2 1 5 4 (by decide)).2 (by decide)

end JobQueueModel
